import Mathlib

set_option maxHeartbeats 1000000

/-!
Shallow embedding of `linkedinHunter.py` (class `LinkedInHarvester` and `main`).
Python strings are modelled as `List Char`; machine-level details that the
program never relies on (exact float sleep durations, wall-clock timestamps)
are modelled as abstract natural numbers or omitted, as noted at each
definition.
-/

namespace LH

abbrev LC := List Char

/-- Python's Unicode whitespace, as matched by `re`'s `\s`, `str.split()` and
`str.strip()`: the six ASCII whitespace characters plus the Unicode space
characters (NEL, NBSP, ogham space, the U+2000 block, line/paragraph
separators, narrow NBSP, medium mathematical space, ideographic space). -/
def isPyWhitespace (c : Char) : Bool :=
  let n := c.toNat
  n == 32 || (9 ≤ n && n ≤ 13) || n == 0x85 || n == 0xA0 || n == 0x1680 ||
  (0x2000 ≤ n && n ≤ 0x200A) || n == 0x2028 || n == 0x2029 || n == 0x202F ||
  n == 0x205F || n == 0x3000

/-- `str.lower` restricted to ASCII letters. The program lowercases only
strings that already went through NFKD + combining-mark removal (or compares
against ASCII literals), so the uppercase letters that reach `.lower()` with
a distinct lowercase form and an effect on the observable result are the
ASCII ones; all other characters are left unchanged. -/
def pyLower (c : Char) : Char :=
  if 65 ≤ c.toNat && c.toNat ≤ 90 then Char.ofNat (c.toNat + 32) else c

/-- `unicodedata.combining(c) != 0` for the combining diacritical marks block,
which contains every mark produced by the `nfkd` table below. -/
def isCombining (c : Char) : Bool :=
  0x300 ≤ c.toNat && c.toNat ≤ 0x36F

/-- NFKD decomposition (`unicodedata.normalize("NFKD", ·)`), tabulated for the
Latin-1 accented letters that the tool's Spanish-oriented inputs use, plus the
no-break space (whose NFKD compatibility decomposition is a plain space);
every other character is its own decomposition. -/
def nfkd (c : Char) : List Char :=
  match c with
  | 'á' => ['a', '́'] | 'à' => ['a', '̀'] | 'â' => ['a', '̂']
  | 'ä' => ['a', '̈'] | 'ã' => ['a', '̃']
  | 'é' => ['e', '́'] | 'è' => ['e', '̀'] | 'ê' => ['e', '̂']
  | 'ë' => ['e', '̈']
  | 'í' => ['i', '́'] | 'ì' => ['i', '̀'] | 'î' => ['i', '̂']
  | 'ï' => ['i', '̈']
  | 'ó' => ['o', '́'] | 'ò' => ['o', '̀'] | 'ô' => ['o', '̂']
  | 'ö' => ['o', '̈'] | 'õ' => ['o', '̃']
  | 'ú' => ['u', '́'] | 'ù' => ['u', '̀'] | 'û' => ['u', '̂']
  | 'ü' => ['u', '̈']
  | 'ñ' => ['n', '̃'] | 'ç' => ['c', '̧'] | 'ý' => ['y', '́']
  | 'Á' => ['A', '́'] | 'À' => ['A', '̀'] | 'Â' => ['A', '̂']
  | 'Ä' => ['A', '̈'] | 'Ã' => ['A', '̃']
  | 'É' => ['E', '́'] | 'È' => ['E', '̀'] | 'Ê' => ['E', '̂']
  | 'Ë' => ['E', '̈']
  | 'Í' => ['I', '́'] | 'Ì' => ['I', '̀'] | 'Î' => ['I', '̂']
  | 'Ï' => ['I', '̈']
  | 'Ó' => ['O', '́'] | 'Ò' => ['O', '̀'] | 'Ô' => ['O', '̂']
  | 'Ö' => ['O', '̈'] | 'Õ' => ['O', '̃']
  | 'Ú' => ['U', '́'] | 'Ù' => ['U', '̀'] | 'Û' => ['U', '̂']
  | 'Ü' => ['U', '̈']
  | 'Ñ' => ['N', '̃'] | 'Ç' => ['C', '̧'] | 'Ý' => ['Y', '́']
  | '\xA0' => [' ']
  | c => [c]

/-- `LinkedInHarvester._remove_accents` (lines 102-109): NFKD-normalize, then
drop combining marks.  The Python guard `if not value: return ""` is the
identity on the empty list here, and is kept for structural fidelity. -/
def remove_accents (value : LC) : LC :=
  if value.isEmpty then []
  else ((value.map nfkd).flatten).filter (fun c => !isCombining c)

/-- `str.strip()`: drop Python whitespace from both ends. -/
def pyStrip (s : LC) : LC :=
  (((s.dropWhile isPyWhitespace).reverse).dropWhile isPyWhitespace).reverse

/-- Accumulator loop of `str.split()` (split on whitespace runs, discarding
empty tokens); `cur` holds the current token reversed. -/
def pySplitAux : LC → LC → List LC
  | [], cur => if cur.isEmpty then [] else [cur.reverse]
  | c :: rest, cur =>
    if isPyWhitespace c then
      if cur.isEmpty then pySplitAux rest [] else cur.reverse :: pySplitAux rest []
    else pySplitAux rest (c :: cur)

/-- `str.split()` with no arguments. -/
def pySplit (s : LC) : List LC := pySplitAux s []

/-- `pat in s` for strings: `pat` occurs contiguously in `s`. -/
def isSubstring (pat : LC) : LC → Bool
  | [] => pat.isEmpty
  | c :: rest => pat.isPrefixOf (c :: rest) || isSubstring pat rest

/-- `str.replace(pat, rep)` on a fuel budget (fuel ≥ input length suffices:
every step consumes at least one input character).  Python's replace scans
left to right and replaces non-overlapping occurrences. -/
def replaceAllF (pat rep : LC) : Nat → LC → LC
  | 0, s => s
  | _, [] => []
  | fuel + 1, c :: rest =>
    if !pat.isEmpty && pat.isPrefixOf (c :: rest) then
      rep ++ replaceAllF pat rep fuel (List.drop pat.length (c :: rest))
    else c :: replaceAllF pat rep fuel rest

/-- `str.replace(pat, rep)` for a non-empty pattern. -/
def replaceAll (pat rep s : LC) : LC := replaceAllF pat rep s.length s

/-- Lines 131-132 of `_generate_emails`: `_remove_accents(x).lower()` followed
by `re.sub(r"[^a-z0-9\s]", "", ·)`.  The character-class substitution deletes
exactly the characters outside `[a-z0-9]` that are not Python whitespace, so
it is the filter keeping `[a-z0-9]` and `\s` characters. -/
def normalizeStrict (s : LC) : LC :=
  ((remove_accents s).map pyLower).filter
    (fun c => (97 ≤ c.toNat && c.toNat ≤ 122) || (48 ≤ c.toNat && c.toNat ≤ 57) ||
              isPyWhitespace c)

/-! ### `_clean_name` (lines 111-117)

`re.sub(r"\s?[|\-]\s?LinkedIn.*$", "", title, flags=re.IGNORECASE)` followed by
`re.split(r"\s[–-]\s", cleaned)[0].strip()`.  The fixed patterns are modelled
directly.  `.` does not match a newline and `$` matches at the end of the
string or just before a final newline, so `.*$` starting after `LinkedIn`
succeeds exactly when the remaining suffix has no newline (consuming all of
it) or exactly one newline in final position (consuming all but that
newline). -/

/-- Case-insensitive literal `LinkedIn`: if the string starts with it, return
the suffix after it. -/
def stripLinkedInLit? (s : LC) : Option LC :=
  if (s.take 8).map pyLower == ['l','i','n','k','e','d','i','n']
  then some (s.drop 8) else none

/-- `.*$` (no DOTALL, no MULTILINE) applied at the current position: returns
the part of the suffix left unconsumed by the match, or `none` if `.*$`
cannot match here. -/
def dotStarDollar? (rest : LC) : Option LC :=
  if rest.count '\n' == 0 then some []
  else if rest.count '\n' == 1 && rest.getLast? == some '\n' then some ['\n']
  else none

/-- `\s?LinkedIn.*$` anchored at the start of `t`.  The greedy `\s?` branch is
tried first; if it consumes a whitespace character, the fallback empty branch
would have to match the literal `L`/`l` against that same whitespace character
and necessarily fails, so the two branches never both apply. -/
def wsLinkedInTail? (t : LC) : Option LC :=
  match t with
  | [] => none
  | c :: rest =>
    if isPyWhitespace c then (stripLinkedInLit? rest).bind dotStarDollar?
    else (stripLinkedInLit? t).bind dotStarDollar?

/-- `\s?[|\-]\s?LinkedIn.*$` anchored at the start of `s`; returns the
unconsumed remainder on a match.  As above, when the leading `\s?` consumes a
whitespace character the empty alternative would need `[|\-]` to match that
whitespace character and fails, so each position matches in at most one way. -/
def sepLinkedIn? (s : LC) : Option LC :=
  match s with
  | [] => none
  | c :: rest =>
    if isPyWhitespace c then
      match rest with
      | [] => none
      | d :: rest2 =>
        if d == '|' || d == '-' then wsLinkedInTail? rest2 else none
    else if c == '|' || c == '-' then wsLinkedInTail? rest
    else none

/-- `re.sub(pattern, "", title)`: scan left to right, delete each
non-overlapping match, continue after it (fuel ≥ input length suffices). -/
def subLinkedInF : Nat → LC → LC
  | 0, s => s
  | _, [] => []
  | fuel + 1, c :: rest =>
    match sepLinkedIn? (c :: rest) with
    | some rem => subLinkedInF fuel rem
    | none => c :: subLinkedInF fuel rest

/-- `re.sub(r"\s?[|\-]\s?LinkedIn.*$", "", title, flags=re.IGNORECASE)`. -/
def subLinkedIn (s : LC) : LC := subLinkedInF s.length s

/-- Does `re.split(r"\s[–-]\s", ·)` split at this position (current character
`c`, remaining characters `rest`)?  In the class `[–-]` the trailing `-` is
literal, so the class is exactly <en dash, hyphen>. -/
def dashSplitHere (c : Char) (rest : LC) : Bool :=
  isPyWhitespace c &&
    (match rest with
     | d :: e :: _ => (d == '–' || d == '-') && isPyWhitespace e
     | _ => false)

/-- `re.split(r"\s[–-]\s", s)[0]`: the prefix before the leftmost match. -/
def firstDashSegment : LC → LC
  | [] => []
  | c :: rest => if dashSplitHere c rest then [] else c :: firstDashSegment rest

/-- `LinkedInHarvester._clean_name` (lines 111-117). -/
def clean_name (title : LC) : LC :=
  pyStrip (firstDashSegment (subLinkedIn title))

/-! ### `_generate_emails` (lines 119-164) -/

/-- The guard `if not self.email_format` is Python falsiness: `None` or the
empty string. -/
def fmtFalsy : Option LC → Bool
  | none => true
  | some [] => true
  | some (_ :: _) => false

/-- The body of the candidate loop (lines 155-159): substitute `{first}`,
`{last}`, `{f}`, `{l}` in this order.  `first[0]`/`last[0]` are total here via
`headD`; every call site passes non-empty tokens produced by `str.split()`. -/
def mkEmail (f first last : LC) : LC :=
  replaceAll "{l}".toList [last.headD ' ']
    (replaceAll "{f}".toList [first.headD ' ']
      (replaceAll "{last}".toList last
        (replaceAll "{first}".toList first f)))

/-- `LinkedInHarvester._generate_emails` (lines 119-164). -/
def generate_emails (email_format : Option LC) (full_name : LC) : List LC :=
  if fmtFalsy email_format then []
  else
    let f := email_format.getD []
    let name_parts := pySplit (normalizeStrict full_name)
    match name_parts with
    | [] => []                -- len(name_parts) < 2
    | [_] => []               -- len(name_parts) < 2
    | first :: p1 :: rest =>
      let candidate_surnames : List LC :=
        match rest with
        | [] => [p1]          -- exactly two tokens
        | p2 :: _ => [p1, p2] -- three or more tokens
      candidate_surnames.foldl
        (fun acc last =>
          match last with
          | [] => acc         -- `if not last: continue`
          | _ :: _ =>
            let email := mkEmail f first last
            if acc.contains email then acc else acc ++ [email])
        []

/-! ### Data model and the per-item body of `harvest` (lines 212-232) -/

/-- A raw Google CSE result item.  The source reads `item.get("link", "")`,
`item.get("title", "")`, `item.get("snippet", "")`; a missing key is
indistinguishable from the present empty string, so the fields are total. -/
structure Item where
  link : LC
  title : LC
  snippet : LC
deriving DecidableEq

/-- The `Employee` dataclass (lines 72-80). -/
structure Employee where
  name : LC
  linkedin_url : LC
  role_snippet : LC
  generated_emails : List LC
deriving DecidableEq

/-- `"profiles" in name.lower()` (line 218). -/
def containsProfiles (name : LC) : Bool :=
  isSubstring "profiles".toList (name.map pyLower)

/-- Lines 212-228 for one result item: `found_employees` is an
insertion-ordered map keyed by the result link (a Python `dict`), modelled as
an association list. -/
def processItem (email_format : Option LC) (found : List (LC × Employee))
    (item : Item) : List (LC × Employee) :=
  if (List.lookup item.link found).isSome then found
  else
    let name := clean_name item.title
    if name.length > 60 || containsProfiles name then found
    else
      found ++ [(item.link,
        { name := name
          linkedin_url := item.link
          role_snippet := replaceAll ['\n'] [' '] item.snippet
          generated_emails := generate_emails email_format name })]

/-- The inner `for item in results` loop. -/
def processItems (email_format : Option LC) (found : List (LC × Employee))
    (items : List Item) : List (LC × Employee) :=
  items.foldl (processItem email_format) found

/-- The result set starts empty (`__init__`, line 95) and is mutated only by
the per-item body of `harvest`. -/
inductive ReachableFound (email_format : Option LC) : List (LC × Employee) → Prop where
  | init : ReachableFound email_format []
  | step (found : List (LC × Employee)) (item : Item) :
      ReachableFound email_format found →
      ReachableFound email_format (processItem email_format found item)

/-! ### `search_google` (lines 166-192)

The HTTP interaction is modelled by a `Fetch` outcome: either `session.get`
raises, or it returns a response with a status code and a body whose JSON
decoding either fails or yields an optional `items` array. -/

inductive JsonBody where
  | invalid : JsonBody
  | valid : Option (List Item) → JsonBody
deriving DecidableEq

inductive Fetch where
  | netError : Fetch
  | response : Nat → JsonBody → Fetch
deriving DecidableEq

/-- The exceptions that can escape the `try` block of `search_google`. -/
inductive SearchExc where
  | requestExc | httpStatusExc | jsonExc
deriving DecidableEq

/-- The `try` block (lines 181-188): a 429 status returns `[]` before
`raise_for_status`; `raise_for_status` raises exactly for 4xx/5xx statuses;
an undecodable body raises; a missing `items` key defaults to `[]`. -/
def tryBody : Fetch → Except SearchExc (List Item)
  | .netError => .error .requestExc
  | .response status body =>
    if status == 429 then .ok []
    else if 400 ≤ status && status < 600 then .error .httpStatusExc
    else
      match body with
      | .invalid => .error .jsonExc
      | .valid itemsField => .ok (itemsField.getD [])

/-- The value `search_google` returns to its caller: the `except` handler
(lines 190-192) turns every escaped exception into `[]`. -/
def searchItems (f : Fetch) : List Item :=
  match tryBody f with
  | .ok items => items
  | .error _ => []

/-- Whole seconds slept inside one `search_google` call:
`time.sleep(REQUEST_DELAY)` (1.0s, line 178) always runs, and the 429 branch
adds `time.sleep(10)` (line 184). -/
def searchSleep (f : Fetch) : Nat :=
  1 + (match f with
       | .response status _ => if status == 429 then 10 else 0
       | .netError => 0)

/-- Did the call print to `sys.stderr` (line 191)?  Exactly when an exception
escaped the request/parse path. -/
def searchStderr (f : Fetch) : Bool :=
  match tryBody f with
  | .ok _ => false
  | .error _ => true

/-! ### The `harvest` loop (lines 194-232) -/

/-- Harvester state: the result map and the request counter are
`found_employees` and `total_requests` from `__init__`; `log` is a ghost
field, not present in the source, recording the `(query, start)` of every
issued page request so that "which requests were issued" is statable. -/
structure HState where
  found : List (LC × Employee)
  total_requests : Nat
  log : List (LC × Nat)
deriving DecidableEq

/-- One call to `self.search_google(query, start)`: the counter increments
unconditionally (line 179, before the `try`), and the returned items are
`searchItems` of the HTTP outcome supplied by the oracle. -/
def search_google (query : LC) (start : Nat) (oracle : LC → Nat → Fetch)
    (st : HState) : List Item × HState :=
  (searchItems (oracle query start),
   { st with total_requests := st.total_requests + 1
             log := st.log ++ [(query, start)] })

/-- The `for page in range(10)` loop (lines 205-232), entered at `page` with
`fuel` iterations left; `if not results: break` stops the query. -/
def harvestPages (email_format : Option LC) (oracle : LC → Nat → Fetch)
    (query : LC) : Nat → Nat → HState → HState
  | 0, _, st => st
  | fuel + 1, page, st =>
    let start := page * 10 + 1
    let res := search_google query start oracle st
    if res.1.isEmpty then res.2
    else
      harvestPages email_format oracle query fuel (page + 1)
        { res.2 with found := processItems email_format res.2.found res.1 }

/-- `f"\"{organization}\" {role}".strip()` (line 202). -/
def mkQuery (org role : LC) : LC :=
  pyStrip (('\x22' :: org) ++ ('\x22' :: ' ' :: role))

/-- `LinkedInHarvester.harvest` (lines 194-232): iterate the role list, with
up to 10 pages per query. -/
def harvest (email_format : Option LC) (org : LC) (roles : List LC)
    (oracle : LC → Nat → Fetch) (st : HState) : HState :=
  roles.foldl (fun s role => harvestPages email_format oracle (mkQuery org role) 10 0 s) st

/-- The pages (0-based loop indices) for which the loop issues a request,
given the items each start offset would return: page `page` is requested,
and the next page is requested only if this page's results are non-empty. -/
def pagesReq (itemsAt : Nat → List Item) : Nat → Nat → List Nat
  | 0, _ => []
  | fuel + 1, page =>
    page :: (if (itemsAt (page * 10 + 1)).isEmpty then []
             else pagesReq itemsAt fuel (page + 1))

/-- The fields of the metrics JSON object (lines 245-251) that are functions
of harvester state; the timestamp and wall-clock duration are real-time
values outside the embedding. -/
structure Metrics where
  organization : LC
  api_requests : Nat
  profiles_found : Nat
deriving DecidableEq

/-- `LinkedInHarvester.save_metrics` (lines 241-254). -/
def save_metrics (org : LC) (st : HState) : Metrics :=
  { organization := org
    api_requests := st.total_requests
    profiles_found := st.found.length }

/-! ### Interrupt timing model for `main` (lines 277-282)

Each accepted result item executes two observable persistence-relevant steps,
in source order: the dictionary insertion (line 228) and the `save_results()`
rewrite of the output file (line 232).  A `KeyboardInterrupt` can arrive
between any two such steps; `main` catches it and its `finally` block writes
the metrics file.  A run's event trace is therefore a sequence of
insert/save pairs, and an interrupt truncates it at an arbitrary point. -/

inductive Ev where
  | ins : Employee → Ev
  | save : Ev
deriving DecidableEq

/-- Effect of one event on (in-memory result list, on-disk result list). -/
def evStep : (List Employee × List Employee) → Ev → (List Employee × List Employee)
  | (mem, disk), .ins e => (mem ++ [e], disk)
  | (mem, _), .save => (mem, mem)

/-- State after a trace; `__init__` calls `save_results()` on the empty map,
so memory and disk both start out empty (and equal). -/
def runEvents (t : List Ev) : List Employee × List Employee :=
  t.foldl evStep ([], [])

/-- Traces `harvest` can generate: every insertion (line 228) is immediately
followed by its `save_results()` (line 232). -/
inductive WFTrace : List Ev → Prop where
  | nil : WFTrace []
  | block (e : Employee) (t : List Ev) : WFTrace t → WFTrace (Ev.ins e :: Ev.save :: t)

/-- A run interrupted after `k` atomic events: the `finally` block
unconditionally writes the metrics file (first component), and the results
file holds whatever the truncated trace left on disk. -/
def interruptedRun (t : List Ev) (k : Nat) : Bool × (List Employee × List Employee) :=
  (true, runEvents (t.take k))

/-! ### `save_results` (lines 234-239) and `__init__` (lines 89-100)

`json.dump(..., indent=4, ensure_ascii=False)` of the employee list.  The
file is opened with mode `"w"`, which truncates: the new content depends only
on the current result set, never on the previous file content. -/

inductive JsonVal where
  | null : JsonVal
  | str : LC → JsonVal
  | arr : List JsonVal → JsonVal
  | obj : List (LC × JsonVal) → JsonVal

/-- Hex digit for `\uXXXX` escapes (lowercase, as `json.dump` emits). -/
def hexDigit (n : Nat) : Char :=
  if n < 10 then Char.ofNat (48 + n) else Char.ofNat (87 + n)

/-- `json.dump` string escaping with `ensure_ascii=False`: escape the quote,
the backslash and control characters (shorthand for the common ones, `\uXXXX`
otherwise); everything else is emitted literally. -/
def jsonEscapeChar (c : Char) : LC :=
  if c == '\x22' then ['\\', '\x22']
  else if c == '\\' then ['\\', '\\']
  else if c == '\n' then ['\\', 'n']
  else if c == '\t' then ['\\', 't']
  else if c == '\x0D' then ['\\', 'r']
  else if c == '\x08' then ['\\', 'b']
  else if c == '\x0C' then ['\\', 'f']
  else if c.toNat < 32 then
    ['\\', 'u', '0', '0', hexDigit (c.toNat / 16), hexDigit (c.toNat % 16)]
  else [c]

def jsonEscape (s : LC) : LC := (s.map jsonEscapeChar).flatten

def indentStr (n : Nat) : LC := List.replicate (4 * n) ' '

def joinSep (sep : LC) : List LC → LC
  | [] => []
  | [x] => x
  | x :: y :: rest => x ++ sep ++ joinSep sep (y :: rest)

/-- `json.dump(v, indent=4)` rendering, on a structural-depth fuel (the values
serialized by this program have depth at most 3; fuel 8 is ample). -/
def renderJson : Nat → Nat → JsonVal → LC
  | 0, _, _ => []
  | _ + 1, _, .null => "null".toList
  | _ + 1, _, .str s => '\x22' :: jsonEscape s ++ ['\x22']
  | _ + 1, _, .arr [] => ['[', ']']
  | fuel + 1, ind, .arr (x :: xs) =>
    ['[', '\n'] ++
    joinSep (',' :: '\n' :: [])
      ((x :: xs).map (fun v => indentStr (ind + 1) ++ renderJson fuel (ind + 1) v)) ++
    ('\n' :: indentStr ind) ++ [']']
  | _ + 1, _, .obj [] => ['\x7b', '\x7d']
  | fuel + 1, ind, .obj (f :: fs) =>
    ['\x7b', '\n'] ++
    joinSep (',' :: '\n' :: [])
      ((f :: fs).map (fun kv =>
        indentStr (ind + 1) ++ ('\x22' :: jsonEscape kv.1 ++ ['\x22']) ++
        (':' :: ' ' :: []) ++ renderJson fuel (ind + 1) kv.2)) ++
    ('\n' :: indentStr ind) ++ ['\x7d']

/-- `asdict(e)` as a JSON value: field order follows the dataclass. -/
def employeeJson (e : Employee) : JsonVal :=
  .obj [("name".toList, .str e.name),
        ("linkedin_url".toList, .str e.linkedin_url),
        ("role_snippet".toList, .str e.role_snippet),
        ("generated_emails".toList, .arr (e.generated_emails.map JsonVal.str))]

/-- Content written by `save_results`: the JSON array of the employees in
insertion order. -/
def renderResults (found : List (LC × Employee)) : LC :=
  renderJson 8 0 (JsonVal.arr (found.map (fun p => employeeJson p.2)))

/-- `save_results` as a file-system transition: mode `"w"` truncates, so the
previous file content is discarded whole. -/
def save_results_file (found : List (LC × Employee)) (_prev : LC) : LC :=
  renderResults found

/-- The output-file content after `__init__` (lines 89-100): the constructor
sets `found_employees = {}` and immediately calls `save_results()`. -/
def initOutputFile (prev : LC) : LC := save_results_file [] prev

/-! ### Helper lemmas -/

theorem pySplitAux_ne_nil (s : LC) :
    ∀ (cur t : LC), t ∈ pySplitAux s cur → t ≠ [] := by
  induction s with
  | nil =>
    intro cur t ht
    simp only [pySplitAux] at ht
    split at ht
    · simp at ht
    · rename_i hcur
      simp only [List.mem_singleton] at ht
      subst ht
      simp_all [List.isEmpty_iff]
  | cons c rest ih =>
    intro cur t ht
    simp only [pySplitAux] at ht
    split at ht
    · split at ht
      · exact ih [] t ht
      · rename_i hcur
        rcases List.mem_cons.mp ht with h | h
        · subst h; simp_all [List.isEmpty_iff]
        · exact ih [] t h
    · exact ih (c :: cur) t ht

theorem pySplit_ne_nil (s t : LC) (h : t ∈ pySplit s) : t ≠ [] :=
  pySplitAux_ne_nil s [] t h

/-- C1: the email inferrer implements the multi-candidate policy: with no
configured template it returns the empty list; otherwise, after normalization
and whitespace tokenization, fewer than 2 tokens yield the empty list, exactly
2 tokens yield the single candidate built from token 0 and token 1, and 3 or
more tokens yield the candidates built independently from token 1 and
token 2, deduplicated; template "{f}{last}@example.com" with name
"Maria Garcia Lopez" yields exactly the two stated candidates. -/
theorem c1_generate_emails_multi_candidate :
    (∀ name : LC, generate_emails none name = []) ∧
    (∀ (f name : LC), f ≠ [] →
      generate_emails (some f) name =
        match pySplit (normalizeStrict name) with
        | [] => []
        | [_] => []
        | [a, b] => [mkEmail f a b]
        | a :: b :: c :: _ =>
          if mkEmail f a c = mkEmail f a b then [mkEmail f a b]
          else [mkEmail f a b, mkEmail f a c]) ∧
    generate_emails (some "{f}{last}@example.com".toList) "Maria Garcia Lopez".toList =
      ["mgarcia@example.com".toList, "mlopez@example.com".toList] := by
  refine ⟨fun name => rfl, ?_, by decide⟩
  intro f name hf
  match f, hf with
  | f0 :: ftl, _ =>
    cases hp : pySplit (normalizeStrict name) with
    | nil => simp [generate_emails, fmtFalsy, hp]
    | cons a rest =>
      cases rest with
      | nil => simp [generate_emails, fmtFalsy, hp]
      | cons b rest2 =>
        have hb : b ≠ [] := pySplit_ne_nil _ _ (by rw [hp]; simp)
        obtain ⟨b0, bs, rfl⟩ : ∃ b0 bs, b = b0 :: bs := by
          cases b with
          | nil => exact absurd rfl hb
          | cons b0 bs => exact ⟨b0, bs, rfl⟩
        cases rest2 with
        | nil =>
          simp [generate_emails, fmtFalsy, hp]
        | cons c rest3 =>
          have hc : c ≠ [] := pySplit_ne_nil _ _ (by rw [hp]; simp)
          obtain ⟨c0, cs, rfl⟩ : ∃ c0 cs, c = c0 :: cs := by
            cases c with
            | nil => exact absurd rfl hc
            | cons c0 cs => exact ⟨c0, cs, rfl⟩
          by_cases heq : mkEmail (f0 :: ftl) a (c0 :: cs) = mkEmail (f0 :: ftl) a (b0 :: bs)
          · simp [generate_emails, fmtFalsy, hp, heq, List.contains]
          · simp [generate_emails, fmtFalsy, hp, heq, List.contains]

/-- Witness for C1 at a concrete template and name. -/
theorem c1_witness :
    generate_emails (some "{first}.{last}@x.com".toList) "Ana Bo".toList =
      ["ana.bo@x.com".toList] :=
  ((c1_generate_emails_multi_candidate.2.1 "{first}.{last}@x.com".toList
    "Ana Bo".toList (by decide)).trans (by decide))

/-- C2: the name extractor removes a separator (`|` or `-`) followed by
"LinkedIn" (case-insensitive) and everything after it, splits the remainder
at an en-dash or hyphen surrounded by spaces keeping the first segment, and
trims whitespace; "Jane Doe | LinkedIn" maps to "Jane Doe" and
"Jane Doe - Marketing Manager - LinkedIn" maps to "Jane Doe". -/
theorem c2_clean_name_pipeline :
    (∀ title : LC, clean_name title = pyStrip (firstDashSegment (subLinkedIn title))) ∧
    clean_name "Jane Doe | LinkedIn".toList = "Jane Doe".toList ∧
    clean_name "Jane Doe - Marketing Manager - LinkedIn".toList = "Jane Doe".toList :=
  ⟨fun _ => rfl, by decide, by decide⟩

/-- The character class `[a-z0-9 ]` that C3 claims bounds the normalizer's
output alphabet. -/
def inClaimedClass (c : Char) : Bool :=
  (97 ≤ c.toNat && c.toNat ≤ 122) || (48 ≤ c.toNat && c.toNat ≤ 57) || c == ' '

/-- Counterexample to C3 as stated: on input "a\tb" the strict normalizer
keeps the tab character (the `re.sub` class `[^a-z0-9\s]` spares all of
Python's `\s`), yet the tab is outside `[a-z0-9 ]`. -/
theorem c3_counterexample :
    normalizeStrict "a\tb".toList = "a\tb".toList ∧
    '\t' ∈ normalizeStrict "a\tb".toList ∧ inClaimedClass '\t' = false := by
  decide

/-- C3 (amended): for every input the strict normalizer outputs only
characters that are lowercase ASCII letters, digits, or whitespace (whitespace
survives the strict filter); empty input yields empty output; and
"José Martínez" normalizes to "jose martinez". -/
theorem c3_normalizer_amended :
    (∀ s : LC, (normalizeStrict s).all
      (fun c => (97 ≤ c.toNat && c.toNat ≤ 122) || (48 ≤ c.toNat && c.toNat ≤ 57) ||
                isPyWhitespace c) = true) ∧
    normalizeStrict [] = [] ∧
    normalizeStrict "José Martínez".toList = "jose martinez".toList := by
  refine ⟨?_, rfl, by decide⟩
  intro s
  rw [List.all_eq_true]
  intro c hc
  exact (List.mem_filter.mp hc).2

theorem lookup_isSome_of_mem_keys {β : Type} (k : LC) (l : List (LC × β))
    (h : k ∈ l.map Prod.fst) : (List.lookup k l).isSome = true := by
  induction l with
  | nil => simp at h
  | cons p t ih =>
    simp only [List.map_cons, List.mem_cons] at h
    rcases h with h | h
    · simp [List.lookup, h]
    · simp only [List.lookup]
      split
      · rfl
      · exact ih h

theorem not_mem_keys_of_lookup_none {β : Type} (k : LC) (l : List (LC × β))
    (h : (List.lookup k l).isSome = false) : k ∉ l.map Prod.fst := by
  intro hmem
  rw [lookup_isSome_of_mem_keys k l hmem] at h
  simp at h

/-- C4: processing a result item whose link is already a key of the result
set leaves the result set unchanged, and processing any item preserves
key-uniqueness of the result set. -/
theorem c4_insert_idempotent :
    ∀ (email_format : Option LC) (found : List (LC × Employee)) (item : Item),
      ((List.lookup item.link found).isSome = true →
        processItem email_format found item = found) ∧
      ((found.map Prod.fst).Nodup →
        ((processItem email_format found item).map Prod.fst).Nodup) := by
  intro email_format found item
  constructor
  · intro h
    unfold processItem
    rw [if_pos h]
  · intro hnd
    unfold processItem
    by_cases hl : (List.lookup item.link found).isSome = true
    · rw [if_pos hl]
      exact hnd
    · rw [if_neg hl]
      dsimp only
      split
      · exact hnd
      · rw [List.map_append, List.nodup_append]
        refine ⟨hnd, by simp, ?_⟩
        intro a ha hb
        simp only [List.map_cons, List.map_nil, List.mem_singleton] at hb
        subst hb
        have hl' : (List.lookup item.link found).isSome = false := by
          cases h2 : (List.lookup item.link found).isSome
          · rfl
          · exact absurd h2 hl
        exact not_mem_keys_of_lookup_none item.link found hl' ha

/-- Witness for C4 at a concrete state and item. -/
theorem c4_witness :
    processItem none [(['u'], ⟨['n'], ['u'], [], []⟩)] ⟨['u'], ['t'], []⟩ =
      [(['u'], ⟨['n'], ['u'], [], []⟩)] ∧
    ((processItem none [(['u'], ⟨['n'], ['u'], [], []⟩)] ⟨['u'], ['t'], []⟩).map
      Prod.fst).Nodup :=
  ⟨(c4_insert_idempotent none _ _).1 (by decide),
   (c4_insert_idempotent none _ _).2 (by decide)⟩

/-- Unfolding of one iteration of the page loop (the `let`s are definitional). -/
theorem harvestPages_succ (email_format : Option LC) (oracle : LC → Nat → Fetch)
    (query : LC) (fuel page : Nat) (st : HState) :
    harvestPages email_format oracle query (fuel + 1) page st =
      if (searchItems (oracle query (page * 10 + 1))).isEmpty then
        (search_google query (page * 10 + 1) oracle st).2
      else
        harvestPages email_format oracle query fuel (page + 1)
          { (search_google query (page * 10 + 1) oracle st).2 with
            found := processItems email_format
              (search_google query (page * 10 + 1) oracle st).2.found
              (searchItems (oracle query (page * 10 + 1))) } := rfl

theorem processItems_reachable (email_format : Option LC) (items : List Item) :
    ∀ found, ReachableFound email_format found →
      ReachableFound email_format (processItems email_format found items) := by
  induction items with
  | nil => exact fun found h => h
  | cons it rest ih =>
    intro found h
    exact ih _ (ReachableFound.step found it h)

theorem harvestPages_reachable (email_format : Option LC) (oracle : LC → Nat → Fetch)
    (query : LC) :
    ∀ (fuel page : Nat) (st : HState), ReachableFound email_format st.found →
      ReachableFound email_format
        ((harvestPages email_format oracle query fuel page st).found) := by
  intro fuel
  induction fuel with
  | zero => exact fun page st h => h
  | succ n ih =>
    intro page st h
    rw [harvestPages_succ]
    split
    · exact h
    · exact ih _ _ (processItems_reachable _ _ _ h)

theorem harvest_reachable (email_format : Option LC) (org : LC)
    (oracle : LC → Nat → Fetch) :
    ∀ (roles : List LC) (st : HState), ReachableFound email_format st.found →
      ReachableFound email_format
        ((harvest email_format org roles oracle st).found) := by
  intro roles
  induction roles with
  | nil => exact fun st h => h
  | cons r rest ih =>
    intro st h
    exact ih _ (harvestPages_reachable _ _ _ _ _ _ h)

/-- The per-entry property C5 asserts of every stored employee. -/
def storedNameOk (p : LC × Employee) : Bool :=
  decide (p.2.name.length ≤ 60) && !containsProfiles p.2.name

/-- C5: in every reachable harvester state each stored employee's cleaned
name has length at most 60 and does not contain "profiles" in any letter
case; moreover every state produced by `harvest` from the initial state is
reachable. -/
theorem c5_stored_names_bounded :
    (∀ (email_format : Option LC) (found : List (LC × Employee)),
       ReachableFound email_format found → found.all storedNameOk = true) ∧
    (∀ (email_format : Option LC) (org : LC) (roles : List LC)
       (oracle : LC → Nat → Fetch),
       ReachableFound email_format
         ((harvest email_format org roles oracle ⟨[], 0, []⟩).found)) := by
  constructor
  · intro fmt found h
    induction h with
    | init => rfl
    | step found item hr ih =>
      unfold processItem
      split
      · exact ih
      · dsimp only
        split
        · exact ih
        · rename_i hguard
          have hb : (decide ((clean_name item.title).length > 60) ||
              containsProfiles (clean_name item.title)) = false := by
            cases hx : (decide ((clean_name item.title).length > 60) ||
                containsProfiles (clean_name item.title))
            · rfl
            · exact absurd hx hguard
          rw [Bool.or_eq_false_iff] at hb
          obtain ⟨hb1, hb2⟩ := hb
          rw [List.all_append, Bool.and_eq_true]
          refine ⟨ih, ?_⟩
          simp only [List.all_cons, List.all_nil, Bool.and_true, storedNameOk]
          rw [Bool.and_eq_true]
          refine ⟨?_, by simp [hb2]⟩
          rw [decide_eq_false_iff_not] at hb1
          rw [decide_eq_true_eq]
          exact Nat.le_of_not_lt hb1
  · intro fmt org roles oracle
    exact harvest_reachable fmt org oracle roles ⟨[], 0, []⟩ ReachableFound.init

/-- Witness for C5 at a concrete reachable state. -/
theorem c5_witness :
    (processItem none [] ⟨['u'], "Jane Doe | LinkedIn".toList, []⟩).all
      storedNameOk = true :=
  c5_stored_names_bounded.1 none _
    (ReachableFound.step [] ⟨['u'], "Jane Doe | LinkedIn".toList, []⟩
      ReachableFound.init)

theorem harvestPages_log (email_format : Option LC) (oracle : LC → Nat → Fetch)
    (query : LC) :
    ∀ (fuel page : Nat) (st : HState),
      (harvestPages email_format oracle query fuel page st).log =
        st.log ++ (pagesReq (fun s => searchItems (oracle query s)) fuel page).map
          (fun k => (query, k * 10 + 1)) := by
  intro fuel
  induction fuel with
  | zero => intro page st; simp [harvestPages, pagesReq]
  | succ n ih =>
    intro page st
    rw [harvestPages_succ]
    split
    · rename_i hempty
      simp only [pagesReq]
      rw [if_pos hempty]
      simp [search_google]
    · rename_i hne
      rw [ih]
      simp only [pagesReq]
      rw [if_neg hne]
      simp [search_google]

theorem harvestPages_requests (email_format : Option LC) (oracle : LC → Nat → Fetch)
    (query : LC) :
    ∀ (fuel page : Nat) (st : HState),
      (harvestPages email_format oracle query fuel page st).total_requests =
        st.total_requests +
          (pagesReq (fun s => searchItems (oracle query s)) fuel page).length := by
  intro fuel
  induction fuel with
  | zero => intro page st; simp [harvestPages, pagesReq]
  | succ n ih =>
    intro page st
    rw [harvestPages_succ]
    split
    · rename_i hempty
      simp only [pagesReq]
      rw [if_pos hempty]
      simp [search_google]
    · rename_i hne
      rw [ih]
      simp only [pagesReq]
      rw [if_neg hne]
      simp only [search_google, List.length_cons]
      omega

theorem pagesReq_mem_bound (itemsAt : Nat → List Item) :
    ∀ (fuel page k : Nat), k ∈ pagesReq itemsAt fuel page →
      page ≤ k ∧ k < page + fuel := by
  intro fuel
  induction fuel with
  | zero => intro page k h; simp [pagesReq] at h
  | succ n ih =>
    intro page k h
    simp only [pagesReq, List.mem_cons] at h
    rcases h with rfl | h
    · omega
    · split at h
      · simp at h
      · have := ih (page + 1) k h
        omega

theorem pagesReq_length (itemsAt : Nat → List Item) :
    ∀ (fuel page : Nat), (pagesReq itemsAt fuel page).length ≤ fuel := by
  intro fuel
  induction fuel with
  | zero => intro page; simp [pagesReq]
  | succ n ih =>
    intro page
    simp only [pagesReq, List.length_cons]
    split
    · simp
    · have := ih (page + 1)
      omega

theorem pagesReq_consecutive (itemsAt : Nat → List Item) :
    ∀ (fuel page m : Nat), m ∈ pagesReq itemsAt fuel page →
      ∀ n, page ≤ n → n < m → itemsAt (n * 10 + 1) ≠ [] := by
  intro fuel
  induction fuel with
  | zero => intro page m h; simp [pagesReq] at h
  | succ d ih =>
    intro page m h n hpn hnm
    simp only [pagesReq, List.mem_cons] at h
    rcases h with rfl | h
    · exfalso; omega
    · split at h
      · simp at h
      · rename_i hne
        by_cases hn : n = page
        · subst hn
          intro hnil
          exact hne (by simp [hnil])
        · exact ih (page + 1) m h n (by omega) hnm

/-- C6: within a single query the page loop requests only the 1-based start
offsets 1, 11, ..., 91 (at most 10 pages), and once a page returns zero items
no later page of that query is ever requested. -/
theorem c6_pagination :
    ∀ (oracle : LC → Nat → Fetch) (email_format : Option LC) (query : LC)
      (st : HState),
      ((harvestPages email_format oracle query 10 0 st).log =
        st.log ++ (pagesReq (fun s => searchItems (oracle query s)) 10 0).map
          (fun k => (query, k * 10 + 1))) ∧
      (∀ p : LC × Nat, p ∈ (harvestPages email_format oracle query 10 0 st).log →
        p ∈ st.log ∨ (p.1 = query ∧ ∃ k : Nat, k < 10 ∧ p.2 = k * 10 + 1)) ∧
      ((pagesReq (fun s => searchItems (oracle query s)) 10 0).length ≤ 10) ∧
      (∀ n m : Nat, searchItems (oracle query (n * 10 + 1)) = [] → n < m →
        m ∉ pagesReq (fun s => searchItems (oracle query s)) 10 0) := by
  intro oracle fmt query st
  refine ⟨harvestPages_log _ _ _ 10 0 st, ?_, pagesReq_length _ 10 0, ?_⟩
  · intro p hp
    rw [harvestPages_log] at hp
    rcases List.mem_append.mp hp with h | h
    · exact Or.inl h
    · right
      obtain ⟨k, hk, rfl⟩ := List.mem_map.mp h
      have hb := pagesReq_mem_bound _ 10 0 k hk
      exact ⟨rfl, k, by omega, rfl⟩
  · intro n m hempty hnm hm
    exact pagesReq_consecutive _ 10 0 m hm n (Nat.zero_le n) hnm hempty

/-- An oracle whose every page is a successful response with zero items. -/
def oracleEmpty : LC → Nat → Fetch := fun _ _ => Fetch.response 200 (.valid (some []))

/-- Witness for C6 at a concrete oracle and state. -/
theorem c6_witness :
    (((([] : LC), 1) ∈ ([] : List (LC × Nat)) ∨
      ((([] : LC), (1 : Nat)).1 = ([] : LC) ∧
        ∃ k : Nat, k < 10 ∧ ((([] : LC), (1 : Nat))).2 = k * 10 + 1)) ∧
     (1 : Nat) ∉ pagesReq (fun s => searchItems (oracleEmpty [] s)) 10 0) :=
  ⟨(c6_pagination oracleEmpty none [] ⟨[], 0, []⟩).2.1 ([], 1) (by decide),
   (c6_pagination oracleEmpty none [] ⟨[], 0, []⟩).2.2.2 0 1 (by decide) (by decide)⟩

/-- C7: the search client never raises to its caller: every exception escaping
the request path is logged to the error stream and yields the empty list, a
429 response sleeps for 11 seconds in total (instead of the usual 1) and
yields the empty list, and the value handed to `harvest` is always this total
function of the HTTP outcome. -/
theorem c7_search_google_never_raises :
    ∀ f : Fetch,
      (∀ e, tryBody f = Except.error e → searchItems f = [] ∧ searchStderr f = true) ∧
      (∀ (status : Nat) (body : JsonBody), f = Fetch.response status body →
        status = 429 → searchItems f = [] ∧ searchSleep f = 11) ∧
      (∀ (status : Nat) (body : JsonBody), f = Fetch.response status body →
        status ≠ 429 → searchSleep f = 1) ∧
      (f = Fetch.netError → searchSleep f = 1) ∧
      (∀ (query : LC) (start : Nat) (oracle : LC → Nat → Fetch) (st : HState),
        oracle query start = f →
        (search_google query start oracle st).1 = searchItems f) := by
  intro f
  refine ⟨?_, ?_, ?_, ?_, ?_⟩
  · intro e he
    constructor
    · simp [searchItems, he]
    · simp [searchStderr, he]
  · rintro status body rfl h429
    subst h429
    constructor
    · simp [searchItems, tryBody]
    · simp [searchSleep]
  · rintro status body rfl h429
    simp only [searchSleep]
    rw [if_neg (by simpa using h429)]
  · rintro rfl
    rfl
  · rintro query start oracle st rfl
    rfl

/-- Witness for C7 at a concrete 429 outcome. -/
theorem c7_witness :
    searchItems (Fetch.response 429 JsonBody.invalid) = [] ∧
    searchSleep (Fetch.response 429 JsonBody.invalid) = 11 :=
  (c7_search_google_never_raises (Fetch.response 429 JsonBody.invalid)).2.1
    429 JsonBody.invalid rfl rfl

theorem harvest_nil (email_format : Option LC) (org : LC)
    (oracle : LC → Nat → Fetch) (st : HState) :
    harvest email_format org [] oracle st = st := rfl

theorem harvest_cons (email_format : Option LC) (org : LC) (r : LC)
    (rest : List LC) (oracle : LC → Nat → Fetch) (st : HState) :
    harvest email_format org (r :: rest) oracle st =
      harvest email_format org rest oracle
        (harvestPages email_format oracle (mkQuery org r) 10 0 st) := rfl

theorem harvest_requests (email_format : Option LC) (org : LC)
    (oracle : LC → Nat → Fetch) :
    ∀ (roles : List LC) (st : HState),
      (harvest email_format org roles oracle st).total_requests =
        st.total_requests + (roles.map (fun role =>
          (pagesReq (fun s => searchItems (oracle (mkQuery org role) s)) 10 0).length)).sum := by
  intro roles
  induction roles with
  | nil => intro st; simp [harvest_nil]
  | cons r rest ih =>
    intro st
    rw [harvest_cons, ih, harvestPages_requests]
    simp only [List.map_cons, List.sum_cons]
    omega

theorem harvest_log_length (email_format : Option LC) (org : LC)
    (oracle : LC → Nat → Fetch) :
    ∀ (roles : List LC) (st : HState),
      (harvest email_format org roles oracle st).log.length =
        st.log.length + (roles.map (fun role =>
          (pagesReq (fun s => searchItems (oracle (mkQuery org role) s)) 10 0).length)).sum := by
  intro roles
  induction roles with
  | nil => intro st; simp [harvest_nil]
  | cons r rest ih =>
    intro st
    rw [harvest_cons, ih, harvestPages_log]
    simp only [List.map_cons, List.sum_cons, List.length_append, List.length_map]
    omega

/-- C8: every `search_google` call increments the request counter by exactly
one regardless of outcome, and the metrics written at run end report an
`api_requests` count equal to the number of page requests issued across all
role terms. -/
theorem c8_request_accounting :
    (∀ (query : LC) (start : Nat) (oracle : LC → Nat → Fetch) (st : HState),
       (search_google query start oracle st).2.total_requests =
         st.total_requests + 1) ∧
    (∀ (email_format : Option LC) (org : LC) (roles : List LC)
       (oracle : LC → Nat → Fetch),
       (save_metrics org (harvest email_format org roles oracle ⟨[], 0, []⟩)).api_requests =
         (harvest email_format org roles oracle ⟨[], 0, []⟩).log.length ∧
       (save_metrics org (harvest email_format org roles oracle ⟨[], 0, []⟩)).api_requests =
         (roles.map (fun role =>
           (pagesReq (fun s => searchItems (oracle (mkQuery org role) s)) 10 0).length)).sum) := by
  refine ⟨fun query start oracle st => rfl, ?_⟩
  intro email_format org roles oracle
  constructor
  · show (harvest email_format org roles oracle ⟨[], 0, []⟩).total_requests =
      (harvest email_format org roles oracle ⟨[], 0, []⟩).log.length
    rw [harvest_requests, harvest_log_length]
    rfl
  · show (harvest email_format org roles oracle ⟨[], 0, []⟩).total_requests = _
    rw [harvest_requests]
    simp

theorem wf_take_synced :
    ∀ (t : List Ev), WFTrace t → ∀ (k : Nat) (m0 : List Employee),
      ((t.take k).foldl evStep (m0, m0)).2 = ((t.take k).foldl evStep (m0, m0)).1 ∨
      ∃ e, ((t.take k).foldl evStep (m0, m0)).1 =
           ((t.take k).foldl evStep (m0, m0)).2 ++ [e] := by
  intro t h
  induction h with
  | nil => intro k m0; left; simp
  | block e t' ht ih =>
    intro k m0
    match k with
    | 0 => left; simp
    | 1 =>
      right
      exact ⟨e, rfl⟩
    | (k' + 2) =>
      have ht2 : (Ev.ins e :: Ev.save :: t').take (k' + 2) =
          Ev.ins e :: Ev.save :: t'.take k' := rfl
      rw [ht2]
      simp only [List.foldl_cons]
      exact ih k' (m0 ++ [e])

/-- The employee of the concrete interrupted trace used for C9. -/
def exEmployee : Employee := ⟨['x'], ['u'], [], []⟩

/-- Counterexample to C9 as stated: in the well-formed two-event trace
"insert, save", an interrupt arriving after the insertion (line 228) but
before its `save_results()` (line 232) leaves the on-disk result list
different from the in-memory result set accumulated up to the interrupt. -/
theorem c9_counterexample :
    WFTrace [Ev.ins exEmployee, Ev.save] ∧
    (interruptedRun [Ev.ins exEmployee, Ev.save] 1).2.2 ≠
      (interruptedRun [Ev.ins exEmployee, Ev.save] 1).2.1 :=
  ⟨WFTrace.block exEmployee [] WFTrace.nil, by decide⟩

/-- C9 (amended): an interrupt at any point of a well-formed harvest trace
still writes the metrics file, and the results file on disk reflects the
accumulated result set except possibly for the single insertion in progress
at the interrupt. -/
theorem c9_interrupt_amended :
    ∀ (t : List Ev) (k : Nat), WFTrace t →
      (interruptedRun t k).1 = true ∧
      ((interruptedRun t k).2.2 = (interruptedRun t k).2.1 ∨
       ∃ e, (interruptedRun t k).2.1 = (interruptedRun t k).2.2 ++ [e]) := by
  intro t k h
  exact ⟨rfl, wf_take_synced t h k []⟩

/-- Witness for C9 at a concrete trace and interrupt point. -/
theorem c9_witness :
    (interruptedRun [Ev.ins exEmployee, Ev.save] 2).1 = true ∧
    ((interruptedRun [Ev.ins exEmployee, Ev.save] 2).2.2 =
      (interruptedRun [Ev.ins exEmployee, Ev.save] 2).2.1 ∨
     ∃ e, (interruptedRun [Ev.ins exEmployee, Ev.save] 2).2.1 =
       (interruptedRun [Ev.ins exEmployee, Ev.save] 2).2.2 ++ [e]) :=
  c9_interrupt_amended [Ev.ins exEmployee, Ev.save] 2
    (WFTrace.block exEmployee [] WFTrace.nil)

/-- C10: at harvester construction `save_results` runs on the empty result
set, so the output file becomes the empty JSON array regardless of (and
destroying) any previous content. -/
theorem c10_init_overwrites :
    (∀ prev : LC, initOutputFile prev = renderResults []) ∧
    renderResults [] = "[]".toList ∧
    (∀ prev prev' : LC, initOutputFile prev = initOutputFile prev') :=
  ⟨fun _ => rfl, by decide, fun _ _ => rfl⟩

end LH
